import Mathlib

/-!
Verification of the asynchronous HTTP GET client in src/src/client.cpp.

The client issues one HTTP/1.1 GET request and parses the response
(status line, headers, body) through a chain of completion handlers:
execute -> on_host_name_resolved -> on_connection_established ->
on_request_sent -> on_status_line_received -> on_headers_received ->
on_response_body_received -> on_finish, with a mutex-guarded
cancellation flag checked along the way.

The embedding below translates that code shallowly: the response bytes
live in an explicit character list (the streambuf), istream extraction
and getline become functions on that list, and each completion handler
becomes a pure function from the request state and the completion
error code to the next state plus the list of externally visible
actions it performs (asynchronous operations issued, socket shutdown,
cancellation of outstanding operations, invoking the final callback).
-/

namespace HttpClient

/-- Error categories mirroring boost::system: the generic system
category, the asio miscellaneous category (home of
asio::error::eof), and the custom http_errors category registered in
the source. -/
inductive ECat where
  | sys
  | misc
  | http
  deriving DecidableEq

/-- Shallow embedding of boost::system::error_code: an integer value
together with the category it belongs to.  Comparison of two codes
(operator==) compares both fields; the checks written
ec.value() != 0 in the source look only at the value. -/
structure ErrorCode where
  val : Nat
  cat : ECat
  deriving DecidableEq

/-- The zero (no-error) value boost::system::error_code(). -/
def noError : ErrorCode := ⟨0, ECat.sys⟩

/-- asio::error::operation_aborted (ECANCELED in the system category on
POSIX); the exact number is irrelevant to the development, only that it
is non-zero and distinct from the other named codes. -/
def operationAborted : ErrorCode := ⟨125, ECat.sys⟩

/-- asio::error::eof, value 2 in the asio miscellaneous category. -/
def eofError : ErrorCode := ⟨2, ECat.misc⟩

/-- http_errors::invalid_response: value 1 in the custom http_errors
category (see make_error_code in the source). -/
def invalidResponse : ErrorCode := ⟨1, ECat.http⟩

/-- Whitespace as classified by isspace in the "C" locale, used both by
istream formatted extraction (operator>>) and by std::stoul. -/
def isWS (c : Char) : Bool :=
  c = ' ' || c = '\t' || c = '\n' || c = '\x0b' || c = '\x0c' || c = '\r'

/-- istream formatted extraction of a string (operator>>): skip leading
whitespace, then take characters up to the next whitespace.  Returns the
extracted token and the rest of the stream (the delimiter, if any, is
not consumed).  On an exhausted stream the token is empty, matching the
C++ behaviour of clearing the output string on failure. -/
def extractToken (s : List Char) : String × List Char :=
  let s1 := s.dropWhile isWS
  (String.mk (s1.takeWhile (fun c => !isWS c)), s1.dropWhile (fun c => !isWS c))

/-- Character test used by getline with delimiter a carriage return. -/
def notCR (c : Char) : Bool := c ≠ '\r'

/-- std::getline(stream, str, CR): take characters up to the first
carriage return and consume that carriage return.  If the stream runs
out first, everything read so far is returned (eof, not failure, in the
C++ semantics when at least the call itself happened). -/
def getlineCR (s : List Char) : String × List Char :=
  (String.mk (s.takeWhile notCR), (s.dropWhile notCR).drop 1)

/-- Value of a list of decimal digit characters. -/
def digitsVal (ds : List Char) : Nat :=
  ds.foldl (fun a c => a * 10 + (c.toNat - 48)) 0

/-- Largest value of the C type unsigned long on the 64-bit targets the
source is built for. -/
def ulongMax : Nat := 2 ^ 64 - 1

/-- Model of std::stoul applied to a token, base 10: skip leading
whitespace, accept an optional sign, then read decimal digits.  Returns
none exactly when stoul throws an exception caught by the source's
catch (std::logic_error&) handler: std::invalid_argument when no digits
are found, std::out_of_range when the digit value exceeds unsigned
long.  A minus sign negates modulo 2^64, as strtoul specifies. -/
def stoulParse (s : String) : Option Nat :=
  let l := s.data.dropWhile isWS
  let signed : Bool × List Char :=
    match l with
    | '+' :: t => (false, t)
    | '-' :: t => (true, t)
    | _ => (false, l)
  let ds := signed.2.takeWhile (fun c => c.isDigit)
  if ds = [] then none
  else if ulongMax < digitsVal ds then none
  else if signed.1 then some ((2 ^ 64 - digitsVal ds) % 2 ^ 64)
  else some (digitsVal ds)

/-- Result of a successful parse of the status line: the status code
(after the unsigned long to unsigned int conversion), the status
message, and what remains of the response stream. -/
structure StatusLine where
  code : Nat
  msg : String
  rest : List Char
  deriving DecidableEq

/-- The status-line parsing block of on_status_line_received: extract
the HTTP version token (must equal "HTTP/1.1"), extract the status code
token and convert it with std::stoul (truncating to unsigned int),
then getline the status message up to CR and drop the following LF.
Both failure branches produce http_errors::invalid_response. -/
def parseStatusLine (s : List Char) : Except ErrorCode StatusLine :=
  let v := extractToken s
  if v.1 ≠ "HTTP/1.1" then Except.error invalidResponse
  else
    let t := extractToken v.2
    match stoulParse t.1 with
    | none => Except.error invalidResponse
    | some code =>
      let g := getlineCR t.2
      Except.ok ⟨code % 2 ^ 32, g.1, g.2.drop 1⟩

/-- Lexicographic (character-by-character, by code point) strict
comparison of two character lists; this is the ordering std::less on
std::string imposes on the keys of std::map. -/
def strLtB : List Char → List Char → Bool
  | [], [] => false
  | [], _ :: _ => true
  | _ :: _, [] => false
  | a :: as, b :: bs => if a < b then true else if b < a then false else strLtB as bs

/-- Insertion into the std::map model: a list of pairs kept strictly
sorted by key.  m_headers[name] = value inserts the pair at its ordered
position, replacing any existing pair with the same key. -/
def mapInsert (m : List (String × String)) (k v : String) : List (String × String) :=
  match m with
  | [] => [(k, v)]
  | p :: t =>
    if strLtB k.data p.1.data then (k, v) :: p :: t
    else if k = p.1 then (k, v) :: t
    else p :: mapInsert t k v

/-- Lookup in the std::map model. -/
def mapLookup (m : List (String × String)) (k : String) : Option String :=
  match m with
  | [] => none
  | p :: t => if p.1 = k then some p.2 else mapLookup t k

/-- The HTTPResponse record: status code, status message, the header
map, and the bytes currently sitting in m_response_buf (the streambuf
that receives data from the server and from which the parsing code
reads). -/
structure HTTPResponse where
  statusCode : Nat
  statusMessage : String
  headers : List (String × String)
  responseBuf : List Char
  deriving DecidableEq

/-- A freshly constructed HTTPResponse.  The C++ members m_status_code
and m_status_message are default-initialised; no claim observes them
before they are set, so 0 and the empty string stand in. -/
def HTTPResponse.empty : HTTPResponse := ⟨0, "", [], []⟩

/-- HTTPResponse::set_status_code. -/
def set_status_code (r : HTTPResponse) (c : Nat) : HTTPResponse :=
  { r with statusCode := c }

/-- HTTPResponse::set_status_message. -/
def set_status_message (r : HTTPResponse) (m : String) : HTTPResponse :=
  { r with statusMessage := m }

/-- HTTPResponse::add_header: m_headers[name] = value. -/
def add_header (r : HTTPResponse) (n v : String) : HTTPResponse :=
  { r with headers := mapInsert r.headers n v }

/-- HTTPResponse::get_status_code. -/
def get_status_code (r : HTTPResponse) : Nat := r.statusCode

/-- HTTPResponse::get_status_message. -/
def get_status_message (r : HTTPResponse) : String := r.statusMessage

/-- HTTPResponse::get_headers: exposes the header std::map. -/
def get_headers (r : HTTPResponse) : List (String × String) := r.headers

/-- One iteration body of the header loop in on_headers_received: split
the line at the first colon into name and value (value empty when the
colon is the last character) and store it with add_header; a line
without a colon is skipped. -/
def splitHeaderLine (line : String) : Option (String × String) :=
  let l := line.data
  if ':' ∈ l then
    let i := l.findIdx (fun c => c = ':')
    let nm := String.mk (l.take i)
    let vl := if i < l.length - 1 then String.mk (l.drop (i + 1)) else ""
    some (nm, vl)
  else none

/-- Apply one header line to the response, as the loop body of
on_headers_received does. -/
def headersLoopStep (r : HTTPResponse) (line : String) : HTTPResponse :=
  match splitHeaderLine line with
  | some nv => add_header r nv.1 nv.2
  | none => r

/-- The header-parsing loop of on_headers_received, fuelled so that it
is structurally recursive: getline a header line up to CR, drop the
following LF, stop when the line is empty, otherwise record the line
and continue.  The fuel is an upper bound on the number of iterations;
headersLoop below supplies one that can never be exhausted, since every
non-final iteration consumes at least one character of the stream. -/
def headersLoopF : Nat → List Char → HTTPResponse → HTTPResponse × List Char
  | 0, s, r => (r, s)
  | fuel + 1, s, r =>
    let header := String.mk (s.takeWhile notCR)
    let s1 := ((s.dropWhile notCR).drop 1).drop 1
    if header = "" then (r, s1)
    else headersLoopF fuel s1 (headersLoopStep r header)

/-- The header-parsing loop of on_headers_received on a stream. -/
def headersLoop (s : List Char) (r : HTTPResponse) : HTTPResponse × List Char :=
  headersLoopF (s.length + 1) s r

/-- Externally visible effects of one completion handler: asynchronous
operations issued against the resolver or socket, the synchronous
send-direction shutdown, cancellation requests, and the single terminal
callback invocation performed by on_finish (carrying the error code the
callback receives). -/
inductive Action where
  | issueResolve
  | issueConnect
  | issueWrite (msg : String)
  | issueReadUntil (delim : String)
  | issueRead
  | shutdownSend
  | resolverCancel
  | sockCancel
  | finish (ec : ErrorCode)
  deriving DecidableEq

/-- The HTTPRequest state: configuration set by the caller, the
composed request buffer, the owned response, the mutex-guarded
cancellation flag, and whether the socket is open (consulted by
cancel()).  The function-pointer callback is modelled by whether it has
been set. -/
structure HTTPRequest where
  host : String
  port : Nat
  uri : String
  id : Nat
  callbackSet : Bool
  requestBuf : String
  response : HTTPResponse
  wasCancelled : Bool
  sockOpen : Bool
  deriving DecidableEq

/-- The HTTPRequest constructor: default port 80, null callback, flag
clear, empty buffers. -/
def mkRequest (id : Nat) : HTTPRequest :=
  { host := "", port := 80, uri := "", id := id, callbackSet := false,
    requestBuf := "", response := HTTPResponse.empty,
    wasCancelled := false, sockOpen := false }

/-- HTTPRequest::on_finish: unconditionally invoke the callback with
the request, its response, and the given error code. -/
def on_finish (st : HTTPRequest) (ec : ErrorCode) : HTTPRequest × List Action :=
  (st, [Action.finish ec])

/-- HTTPRequest::execute: assert the preconditions (none yields the
assertion-failure outcome, modelled as the none result), then check the
cancellation flag under the mutex — if set, finish with
operation_aborted without resolving — otherwise start the asynchronous
resolve. -/
def execute (st : HTTPRequest) : Option (HTTPRequest × List Action) :=
  if 0 < st.port ∧ 0 < st.host.length ∧ 0 < st.uri.length ∧ st.callbackSet = true then
    some (if st.wasCancelled then on_finish st operationAborted
          else (st, [Action.issueResolve]))
  else none

/-- HTTPRequest::cancel: under the mutex set the cancellation flag,
then ask the resolver to cancel and, if the socket is open, ask the
socket to cancel its outstanding operations.  No callback is invoked
here. -/
def cancel (st : HTTPRequest) : HTTPRequest × List Action :=
  ({ st with wasCancelled := true },
    Action.resolverCancel :: (if st.sockOpen then [Action.sockCancel] else []))

/-- HTTPRequest::on_host_name_resolved: a non-zero completion error
finishes with that error; a set cancellation flag finishes with
operation_aborted; otherwise the asynchronous connect is issued. -/
def on_host_name_resolved (st : HTTPRequest) (ec : ErrorCode) : HTTPRequest × List Action :=
  if ec.val ≠ 0 then on_finish st ec
  else if st.wasCancelled then on_finish st operationAborted
  else (st, [Action.issueConnect])

/-- The three appends composing m_request_buf in
on_connection_established. -/
def composeRequest (st : HTTPRequest) : String :=
  ((st.requestBuf ++ ("GET " ++ st.uri ++ " HTTP/1.1\r\n")) ++
    ("Host: " ++ st.host ++ "\r\n")) ++ "\r\n"

/-- HTTPRequest::on_connection_established: a non-zero completion error
finishes with that error; otherwise the request message is composed
into m_request_buf (the socket is now open), the cancellation flag is
checked, and if clear the asynchronous write of the buffer is issued. -/
def on_connection_established (st : HTTPRequest) (ec : ErrorCode) : HTTPRequest × List Action :=
  if ec.val ≠ 0 then on_finish st ec
  else
    let st1 := { st with requestBuf := composeRequest st, sockOpen := true }
    if st1.wasCancelled then on_finish st1 operationAborted
    else (st1, [Action.issueWrite st1.requestBuf])

/-- HTTPRequest::on_request_sent: a non-zero completion error finishes
with that error; otherwise the send direction of the socket is shut
down synchronously, the cancellation flag is checked, and if clear the
asynchronous read of the status line (up to CRLF) is issued. -/
def on_request_sent (st : HTTPRequest) (ec : ErrorCode) : HTTPRequest × List Action :=
  if ec.val ≠ 0 then on_finish st ec
  else
    let acts := if st.wasCancelled then [Action.finish operationAborted]
                else [Action.issueReadUntil "\r\n"]
    (st, Action.shutdownSend :: acts)

/-- HTTPRequest::on_status_line_received: a non-zero completion error
finishes with that error; otherwise the status line is parsed from the
response buffer — either failure mode finishes with
http_errors::invalid_response — the status code and message are stored,
the cancellation flag is checked, and if clear the asynchronous read of
the header block (up to CRLFCRLF) is issued. -/
def on_status_line_received (st : HTTPRequest) (ec : ErrorCode) : HTTPRequest × List Action :=
  if ec.val ≠ 0 then on_finish st ec
  else
    match parseStatusLine st.response.responseBuf with
    | Except.error e => on_finish st e
    | Except.ok out =>
      let r1 := set_status_message (set_status_code st.response out.code) out.msg
      let st1 := { st with response := { r1 with responseBuf := out.rest } }
      if st1.wasCancelled then on_finish st1 operationAborted
      else (st1, [Action.issueReadUntil "\r\n\r\n"])

/-- HTTPRequest::on_headers_received: a non-zero completion error
finishes with that error; otherwise header lines are parsed from the
response buffer into the header map, the cancellation flag is checked,
and if clear the asynchronous read of the body (until end of stream) is
issued. -/
def on_headers_received (st : HTTPRequest) (ec : ErrorCode) : HTTPRequest × List Action :=
  if ec.val ≠ 0 then on_finish st ec
  else
    let hr := headersLoop st.response.responseBuf st.response
    let st1 := { st with response := { hr.1 with responseBuf := hr.2 } }
    if st1.wasCancelled then on_finish st1 operationAborted
    else (st1, [Action.issueRead])

/-- HTTPRequest::on_response_body_received: end of stream is the
expected completion and finishes with the zero error code (the body is
whatever sits in the response buffer); any other completion error
finishes with that error. -/
def on_response_body_received (st : HTTPRequest) (ec : ErrorCode) : HTTPRequest × List Action :=
  if ec = eofError then on_finish st noError
  else on_finish st ec

/-- Driver for a complete request in which every transport step
succeeds: the caller configures host, port, uri and the callback and
calls execute; resolve, connect and write complete with the zero error
code; the server's whole reply is in the response buffer when the
status-line read completes; and the body read ends with end of stream
after the server closes the connection.  Returns the final request
state and the per-handler action trace. -/
def runGetRequest (host : String) (port : Nat) (uri : String) (response : String) :
    HTTPRequest × List (List Action) :=
  let st0 := { mkRequest 1 with host := host, port := port, uri := uri, callbackSet := true }
  match execute st0 with
  | none => (st0, [])
  | some s1 =>
    let s2 := on_host_name_resolved s1.1 noError
    let s3 := on_connection_established s2.1 noError
    let s4 := on_request_sent s3.1 noError
    let st4 := { s4.1 with response :=
      { s4.1.response with responseBuf := s4.1.response.responseBuf ++ response.data } }
    let s5 := on_status_line_received st4 noError
    let s6 := on_headers_received s5.1 noError
    let s7 := on_response_body_received s6.1 eofError
    (s7.1, [s1.2, s2.2, s3.2, s4.2, s5.2, s6.2, s7.2])

/-- A header block: each line followed by CRLF. -/
def encodeLines (lines : List String) : List Char :=
  (lines.map (fun l => l.data ++ ['\r', '\n'])).flatten

/-- Folding a list of already-split header lines into the response, the
lines-level counterpart of the header loop. -/
def foldHeaders (r : HTTPResponse) (lines : List String) : HTTPResponse :=
  lines.foldl headersLoopStep r

/-- The value of the last pair carrying a given key, the last-write-wins
reading of a sequence of add_header calls. -/
def lastWins (ps : List (String × String)) (k : String) : Option String :=
  (ps.reverse.find? (fun p => p.1 = k)).map Prod.snd

/-- The server reply bytes of the concrete scenario in the spec. -/
def exampleReply : String := "HTTP/1.1 200 OK\r\nContent-Length: 5\r\n\r\nhello"

/-- A request whose buffered response starts with an HTTP/1.0 status line. -/
def reqHttp10 : HTTPRequest :=
  { mkRequest 1 with response := { HTTPResponse.empty with responseBuf := ("HTTP/1.0 200 OK\r\n").data } }

/-- A request whose buffered status line has a non-numeric status code. -/
def reqBadCode : HTTPRequest :=
  { mkRequest 1 with response := { HTTPResponse.empty with responseBuf := ("HTTP/1.1 OK FOUND\r\n").data } }

/-- A cancelled request whose buffered status line is not parsable. -/
def reqCancelledHttp10 : HTTPRequest := { reqHttp10 with wasCancelled := true }

/-- A configured request that has been cancelled. -/
def reqCancelled : HTTPRequest :=
  { mkRequest 2 with host := "h", uri := "/", callbackSet := true, wasCancelled := true }

/-- A configured request ready to execute. -/
def reqReady : HTTPRequest :=
  { mkRequest 6 with host := "example.test", uri := "/", callbackSet := true }

/-- A request with body bytes accumulated in the response buffer. -/
def reqWithBody : HTTPRequest :=
  { mkRequest 5 with response := { HTTPResponse.empty with responseBuf := ("hello").data } }

/-- A request whose buffered response holds two header lines, received
in reverse alphabetical order, terminated by the blank line. -/
def reqTwoHeaders : HTTPRequest :=
  { mkRequest 7 with response := { HTTPResponse.empty with responseBuf := ("B: 2\r\nA: 1\r\n\r\n").data } }


/-! ### Basic facts about the embedding -/

/-- Two strings with the same character data are equal. -/
theorem str_ext {a b : String} (h : a.data = b.data) : a = b := by
  cases a
  cases b
  exact congrArg String.mk h

/-- A non-empty string has positive length. -/
theorem str_length_pos {s : String} (h : s ≠ "") : 0 < s.length := by
  cases s with
  | mk l =>
    cases l with
    | nil => exact absurd rfl h
    | cons c t => simp [String.length]

/-- The zero error code has value zero. -/
theorem noError_val : noError.val = 0 := rfl

/-- Every error produced by the status-line parser is
http_errors::invalid_response. -/
theorem parseStatusLine_error_eq {s : List Char} {e : ErrorCode}
    (h : parseStatusLine s = Except.error e) : e = invalidResponse := by
  by_cases h1 : (extractToken s).1 = "HTTP/1.1"
  · cases h2 : stoulParse (extractToken (extractToken s).2).1 with
    | none =>
      simp [parseStatusLine, h1, h2] at h
      exact h.symm
    | some v =>
      simp [parseStatusLine, h1, h2] at h
  · simp [parseStatusLine, h1] at h
    exact h.symm

/-- The status-line parser fails exactly when the version token is not
the literal HTTP/1.1 or the status-code token is not accepted by
std::stoul. -/
theorem parseStatusLine_error_iff (s : List Char) :
    (∃ e, parseStatusLine s = Except.error e) ↔
      ((extractToken s).1 ≠ "HTTP/1.1" ∨
        stoulParse (extractToken (extractToken s).2).1 = none) := by
  by_cases h1 : (extractToken s).1 = "HTTP/1.1"
  · cases h2 : stoulParse (extractToken (extractToken s).2).1 with
    | none => simp [parseStatusLine, h1, h2]
    | some v => simp [parseStatusLine, h1, h2]
  · simp [parseStatusLine, h1]

/-! ### Claim C1 -/

/-- C1, counterexample: in the concrete scenario (host example.test,
port 80, path /, reply HTTP/1.1 200 OK, Content-Length: 5, body hello)
the status message the code stores is not "OK" and the Content-Length
value is not "5": getline after formatted extraction keeps the space
preceding the status text, and the header value is everything after the
colon including the following space. -/
theorem scenario_example_test_refuted :
    (runGetRequest "example.test" 80 "/" exampleReply).1.response.statusMessage ≠ "OK"
    ∧ mapLookup (runGetRequest "example.test" 80 "/" exampleReply).1.response.headers
        "Content-Length" ≠ some "5" := by
  constructor
  · decide
  · decide

/-- C1, as amended: in that scenario the completed request reports
status code 200, status message " OK" (the space that followed the
status-code token is part of the stored message), a headers mapping
holding exactly Content-Length with value " 5" (the space after the
colon is part of the stored value), body "hello", and the callback
receives the zero (no-error) code; along the way each step issued its
asynchronous operation and the write carried the composed request. -/
theorem scenario_example_test :
    (runGetRequest "example.test" 80 "/" exampleReply).1.response.statusCode = 200
    ∧ (runGetRequest "example.test" 80 "/" exampleReply).1.response.statusMessage = " OK"
    ∧ (runGetRequest "example.test" 80 "/" exampleReply).1.response.headers
        = [("Content-Length", " 5")]
    ∧ String.mk (runGetRequest "example.test" 80 "/" exampleReply).1.response.responseBuf
        = "hello"
    ∧ (runGetRequest "example.test" 80 "/" exampleReply).2
        = [[Action.issueResolve], [Action.issueConnect],
           [Action.issueWrite "GET / HTTP/1.1\r\nHost: example.test\r\n\r\n"],
           [Action.shutdownSend, Action.issueReadUntil "\r\n"],
           [Action.issueReadUntil "\r\n\r\n"], [Action.issueRead],
           [Action.finish noError]] := by
  refine ⟨by decide, by decide, by decide, by decide, by decide⟩

/-! ### Claim C2 -/

/-- C2: when the status-line read completes without a transport error,
the request finishes with http_errors::invalid_response — an error of
the custom http category, not of a transport category — exactly when
the first whitespace-delimited token of the buffered response differs
from the literal HTTP/1.1 or the second token is rejected by std::stoul;
in particular the first lines HTTP/1.0 200 OK and HTTP/1.1 OK FOUND
both produce that domain error. -/
theorem status_line_invalid_response_iff :
    (∀ st : HTTPRequest,
      ((on_status_line_received st noError).2 = [Action.finish invalidResponse] ↔
        ((extractToken st.response.responseBuf).1 ≠ "HTTP/1.1" ∨
          stoulParse (extractToken (extractToken st.response.responseBuf).2).1 = none)))
    ∧ invalidResponse.cat = ECat.http
    ∧ (∀ ec : ErrorCode, ec.cat = ECat.http → ec.cat ≠ ECat.sys ∧ ec.cat ≠ ECat.misc)
    ∧ (on_status_line_received reqHttp10 noError).2 = [Action.finish invalidResponse]
    ∧ (on_status_line_received reqBadCode noError).2 = [Action.finish invalidResponse] := by
  refine ⟨?_, rfl, ?_, by decide, by decide⟩
  · intro st
    rw [← parseStatusLine_error_iff st.response.responseBuf]
    cases hp : parseStatusLine st.response.responseBuf with
    | error e =>
      have he := parseStatusLine_error_eq hp
      subst he
      refine ⟨fun _ => ⟨invalidResponse, rfl⟩, fun _ => ?_⟩
      simp [on_status_line_received, noError_val, hp, on_finish]
    | ok out =>
      constructor
      · intro h
        by_cases hc : st.wasCancelled <;>
          simp [on_status_line_received, noError_val, hp, hc, on_finish,
            operationAborted, invalidResponse] at h
      · rintro ⟨e, he⟩
        exact absurd he (by simp)
  · intro ec h
    constructor <;> simp [h]

/-- C2, witness: the iff applied to the HTTP/1.0 request and the
category-distinctness clause applied to invalid_response. -/
theorem status_line_invalid_response_iff_witness :
    (on_status_line_received reqHttp10 noError).2 = [Action.finish invalidResponse]
    ∧ invalidResponse.cat ≠ ECat.sys := by
  refine ⟨(status_line_invalid_response_iff.1 reqHttp10).mpr (Or.inl (by decide)),
    (status_line_invalid_response_iff.2.2.1 invalidResponse rfl).1⟩

/-! ### Claim C3 -/

/-- C3, counterexample: the status-line handler parses before it checks
the cancellation flag, so with the flag already set and a completion
without transport error, an unparsable status line finishes the request
with http_errors::invalid_response rather than with
operation_aborted. -/
theorem cancelled_parse_failure_wrong_error :
    (on_status_line_received reqCancelledHttp10 noError).2 = [Action.finish invalidResponse]
    ∧ invalidResponse ≠ operationAborted := by
  constructor
  · decide
  · decide

/-- C3, as amended: once cancel() has set the cancellation flag, every
subsequently entered step that completed without a transport error
transitions to finalization with operation_aborted and issues no
further asynchronous operation — except that the status-line handler
runs its parse before its cancellation check, so when that parse fails
it finishes with invalid_response instead; and cancel() itself never
invokes the completion callback: it only sets the flag and asks the
resolver and (if open) the socket to abort their outstanding
operations. -/
theorem cancellation_short_circuits :
    (∀ st : HTTPRequest, (cancel st).1.wasCancelled = true ∧
        (∀ ec : ErrorCode, Action.finish ec ∉ (cancel st).2))
    ∧ (∀ st : HTTPRequest, st.wasCancelled = true →
        (0 < st.port → 0 < st.host.length → 0 < st.uri.length → st.callbackSet = true →
          execute st = some (st, [Action.finish operationAborted]))
        ∧ (on_host_name_resolved st noError).2 = [Action.finish operationAborted]
        ∧ (on_connection_established st noError).2 = [Action.finish operationAborted]
        ∧ (on_request_sent st noError).2 = [Action.shutdownSend, Action.finish operationAborted]
        ∧ (∀ out, parseStatusLine st.response.responseBuf = Except.ok out →
            (on_status_line_received st noError).2 = [Action.finish operationAborted])
        ∧ (on_headers_received st noError).2 = [Action.finish operationAborted]) := by
  constructor
  · intro st
    refine ⟨rfl, fun ec => ?_⟩
    unfold cancel
    by_cases h : st.sockOpen <;> simp [h]
  · intro st hc
    refine ⟨?_, ?_, ?_, ?_, ?_, ?_⟩
    · intro h1 h2 h3 h4
      unfold execute
      rw [if_pos ⟨h1, h2, h3, h4⟩]
      simp [hc, on_finish]
    · simp [on_host_name_resolved, noError_val, hc, on_finish]
    · simp [on_connection_established, noError_val, hc, on_finish]
    · simp [on_request_sent, noError_val, hc]
    · intro out hp
      simp [on_status_line_received, noError_val, hp, hc, on_finish]
    · simp [on_headers_received, noError_val, hc, on_finish]

/-- C3, witness: the amended theorem applied to a concrete cancelled
request. -/
theorem cancellation_short_circuits_witness :
    execute reqCancelled = some (reqCancelled, [Action.finish operationAborted])
    ∧ (on_headers_received reqCancelled noError).2 = [Action.finish operationAborted] := by
  have h := cancellation_short_circuits.2 reqCancelled rfl
  exact ⟨h.1 (by decide) (by decide) (by decide) rfl, h.2.2.2.2.2⟩

/-! ### Claim C4 -/

/-- C4, counterexample: the body-read completion handler does not pass
the end-of-stream error through; invoked with asio::error::eof — a
non-zero error code — it finishes the request with the zero code
instead of with eof. -/
theorem body_eof_not_propagated :
    (on_response_body_received (mkRequest 3) eofError).2 = [Action.finish noError]
    ∧ eofError.val ≠ 0
    ∧ noError ≠ eofError := by
  refine ⟨by decide, by decide, by decide⟩

/-- C4, as amended: for every step before the body read, a completion
handler invoked with a non-zero error code transitions directly to
finalization and the callback receives exactly that error code value,
unchanged — no retry, remap or local recovery; the body-read handler
does the same for every error other than end-of-stream, but remaps
asio::error::eof to the zero (success) code. -/
theorem nonzero_error_propagates :
    ∀ (st : HTTPRequest) (ec : ErrorCode), ec.val ≠ 0 →
      (on_host_name_resolved st ec).2 = [Action.finish ec]
      ∧ (on_connection_established st ec).2 = [Action.finish ec]
      ∧ (on_request_sent st ec).2 = [Action.finish ec]
      ∧ (on_status_line_received st ec).2 = [Action.finish ec]
      ∧ (on_headers_received st ec).2 = [Action.finish ec]
      ∧ (ec ≠ eofError → (on_response_body_received st ec).2 = [Action.finish ec]) := by
  intro st ec h
  refine ⟨?_, ?_, ?_, ?_, ?_, ?_⟩
  · unfold on_host_name_resolved
    rw [if_pos h]
    rfl
  · unfold on_connection_established
    rw [if_pos h]
    rfl
  · unfold on_request_sent
    rw [if_pos h]
    rfl
  · unfold on_status_line_received
    rw [if_pos h]
    rfl
  · unfold on_headers_received
    rw [if_pos h]
    rfl
  · intro hne
    unfold on_response_body_received
    rw [if_neg hne]
    rfl

/-- C4, witness: the amended theorem applied to a concrete connection
reset error, and to eof for the body-step clause. -/
theorem nonzero_error_propagates_witness :
    (on_host_name_resolved (mkRequest 4) ⟨104, ECat.sys⟩).2
      = [Action.finish ⟨104, ECat.sys⟩]
    ∧ (on_response_body_received (mkRequest 4) ⟨104, ECat.sys⟩).2
      = [Action.finish ⟨104, ECat.sys⟩] := by
  have h := nonzero_error_propagates (mkRequest 4) ⟨104, ECat.sys⟩ (by decide)
  exact ⟨h.1, h.2.2.2.2.2 (by decide)⟩

/-! ### Claim C5 -/

/-- C5: in the body-reading step an end-of-stream completion is treated
as success — the request finishes with the zero code and the state,
including the bytes accumulated in the response buffer (the body,
possibly empty), untouched — while any completion error other than eof
finishes the request with exactly that error. -/
theorem body_eof_is_success :
    ∀ st : HTTPRequest,
      on_response_body_received st eofError = (st, [Action.finish noError])
      ∧ (on_response_body_received st eofError).1.response.responseBuf
          = st.response.responseBuf
      ∧ ∀ ec : ErrorCode, ec ≠ eofError →
          on_response_body_received st ec = (st, [Action.finish ec]) := by
  intro st
  refine ⟨?_, ?_, ?_⟩
  · unfold on_response_body_received
    rw [if_pos rfl]
    rfl
  · unfold on_response_body_received
    rw [if_pos rfl]
    rfl
  · intro ec h
    unfold on_response_body_received
    rw [if_neg h]
    rfl

/-- C5, witness: the theorem applied to a concrete request with body
bytes in the buffer, at eof and at a concrete non-eof error. -/
theorem body_eof_is_success_witness :
    on_response_body_received reqWithBody eofError
      = (reqWithBody, [Action.finish noError])
    ∧ on_response_body_received reqWithBody ⟨110, ECat.sys⟩
      = (reqWithBody, [Action.finish ⟨110, ECat.sys⟩]) := by
  have h := body_eof_is_success reqWithBody
  exact ⟨h.1, h.2.2 ⟨110, ECat.sys⟩ (by decide)⟩

/-! ### Claim C9 -/

/-- C9: execute() checks its preconditions by assertions at entry — the
assertion-failure outcome occurs exactly when the port is zero, the
host is empty, the path is empty, or the callback is null — and under
the preconditions (positive port, non-empty host and path, callback
set) the assertion-failure branch is unreachable. -/
theorem execute_preconditions :
    ∀ st : HTTPRequest,
      (execute st = none ↔
        ¬ (0 < st.port ∧ 0 < st.host.length ∧ 0 < st.uri.length ∧ st.callbackSet = true))
      ∧ (0 < st.port → st.host ≠ "" → st.uri ≠ "" → st.callbackSet = true →
          ∃ out, execute st = some out) := by
  intro st
  constructor
  · unfold execute
    by_cases h : 0 < st.port ∧ 0 < st.host.length ∧ 0 < st.uri.length ∧ st.callbackSet = true
    · rw [if_pos h]
      simp [h]
    · rw [if_neg h]
      simp [h]
  · intro h1 h2 h3 h4
    unfold execute
    rw [if_pos ⟨h1, str_length_pos h2, str_length_pos h3, h4⟩]
    exact ⟨_, rfl⟩

/-- C9, witness: the theorem applied to a concrete request satisfying
all four preconditions. -/
theorem execute_preconditions_witness :
    ∃ out, execute reqReady = some out := by
  exact (execute_preconditions reqReady).2 (by decide) (by decide) (by decide) rfl

/-! ### Claim C8 -/

/-- With an empty request buffer, composing the request yields exactly
the GET line, the Host header, and the terminating blank line. -/
theorem composeRequest_eq (st : HTTPRequest) (h : st.requestBuf = "") :
    composeRequest st = "GET " ++ st.uri ++ " HTTP/1.1\r\nHost: " ++ st.host ++ "\r\n\r\n" := by
  apply str_ext
  have e0 : ("" : String).data = [] := rfl
  have e1 : ("GET " : String).data = ['G', 'E', 'T', ' '] := rfl
  have e2 : (" HTTP/1.1\r\n" : String).data
      = [' ', 'H', 'T', 'T', 'P', '/', '1', '.', '1', '\r', '\n'] := rfl
  have e3 : ("Host: " : String).data = ['H', 'o', 's', 't', ':', ' '] := rfl
  have e4 : ("\r\n" : String).data = ['\r', '\n'] := rfl
  have e5 : (" HTTP/1.1\r\nHost: " : String).data
      = [' ', 'H', 'T', 'T', 'P', '/', '1', '.', '1', '\r', '\n', 'H', 'o', 's', 't', ':', ' '] :=
    rfl
  have e6 : ("\r\n\r\n" : String).data = ['\r', '\n', '\r', '\n'] := rfl
  simp [composeRequest, h, String.data_append, e0, e1, e2, e3, e4, e5, e6]

/-- C8: for every request state as produced by the constructor (empty
request buffer) and not cancelled, the connect-completion handler
writes to the socket exactly the byte string
GET, space, path, space, HTTP/1.1, CRLF, Host header, CRLF, CRLF — no
other headers and no body — and after the write completes the
send direction is shut down synchronously inside the same completion
handler, before the status-line read is issued. -/
theorem request_message_and_shutdown :
    ∀ st : HTTPRequest, st.requestBuf = "" → st.wasCancelled = false →
      (on_connection_established st noError).2
        = [Action.issueWrite ("GET " ++ st.uri ++ " HTTP/1.1\r\nHost: " ++ st.host ++ "\r\n\r\n")]
      ∧ (on_request_sent st noError).2
        = [Action.shutdownSend, Action.issueReadUntil "\r\n"] := by
  intro st hbuf hc
  constructor
  · simp [on_connection_established, noError_val, hc, composeRequest_eq st hbuf]
  · simp [on_request_sent, noError_val, hc]

/-- C8, witness: the theorem applied to the concrete configured
request. -/
theorem request_message_and_shutdown_witness :
    (on_connection_established reqReady noError).2
      = [Action.issueWrite "GET / HTTP/1.1\r\nHost: example.test\r\n\r\n"]
    ∧ (on_request_sent reqReady noError).2
      = [Action.shutdownSend, Action.issueReadUntil "\r\n"] := by
  have h := request_message_and_shutdown reqReady rfl rfl
  exact ⟨h.1.trans (by decide), h.2⟩


/-! ### Header-block machinery -/

/-- Rebuilding a string from its data is the identity. -/
theorem mk_data (s : String) : String.mk s.data = s := rfl

/-- takeWhile over an append whose first part wholly satisfies the
predicate. -/
theorem takeWhile_append_all {p : Char → Bool} :
    ∀ {l : List Char} (t : List Char), (∀ c ∈ l, p c = true) →
      (l ++ t).takeWhile p = l ++ t.takeWhile p := by
  intro l
  induction l with
  | nil => intro t _; rfl
  | cons c cs ih =>
    intro t h
    have hc : p c = true := h c (List.mem_cons_self c cs)
    simp only [List.cons_append, List.takeWhile_cons, hc, if_true]
    rw [ih t (fun x hx => h x (List.mem_cons_of_mem c hx))]

/-- dropWhile over an append whose first part wholly satisfies the
predicate. -/
theorem dropWhile_append_all {p : Char → Bool} :
    ∀ {l : List Char} (t : List Char), (∀ c ∈ l, p c = true) →
      (l ++ t).dropWhile p = t.dropWhile p := by
  intro l
  induction l with
  | nil => intro t _; rfl
  | cons c cs ih =>
    intro t h
    have hc : p c = true := h c (List.mem_cons_self c cs)
    simp only [List.cons_append, List.dropWhile_cons, hc, if_true]
    exact ih t (fun x hx => h x (List.mem_cons_of_mem c hx))

/-- The number of encoded lines never exceeds the number of encoded
characters. -/
theorem encodeLines_length (lines : List String) :
    lines.length ≤ (encodeLines lines).length := by
  induction lines with
  | nil => simp [encodeLines]
  | cons l ls ih =>
    simp only [encodeLines, List.map_cons, List.flatten_cons, List.length_append,
      List.length_cons, List.length_map] at *
    omega

/-- Running the fuelled header loop on an encoded block of CR-free,
non-empty lines followed by the blank line consumes exactly the block
and folds the lines into the response, provided the fuel exceeds the
number of lines. -/
theorem headersLoopF_encode :
    ∀ (lines : List String) (fuel : Nat) (rest : List Char) (r : HTTPResponse),
      (∀ l ∈ lines, l ≠ "" ∧ ∀ c ∈ l.data, c ≠ '\r') →
      lines.length < fuel →
      headersLoopF fuel (encodeLines lines ++ '\r' :: '\n' :: rest) r
        = (foldHeaders r lines, rest) := by
  intro lines
  induction lines with
  | nil =>
    intro fuel rest r _ hf
    cases fuel with
    | zero => omega
    | succ f =>
      show headersLoopF (f + 1) (encodeLines [] ++ '\r' :: '\n' :: rest) r = (r, rest)
      simp [encodeLines, headersLoopF, notCR, List.takeWhile_cons, List.dropWhile_cons]
  | cons l ls ih =>
    intro fuel rest r hwf hf
    obtain ⟨hne, hcr⟩ := hwf l (List.mem_cons_self l ls)
    cases fuel with
    | zero => omega
    | succ f =>
      have henc : encodeLines (l :: ls) ++ '\r' :: '\n' :: rest
          = l.data ++ ('\r' :: '\n' :: (encodeLines ls ++ '\r' :: '\n' :: rest)) := by
        simp [encodeLines, List.flatten_cons, List.append_assoc]
      have hall : ∀ c ∈ l.data, notCR c = true := by
        intro c hcmem
        simp only [notCR, ne_eq, decide_eq_true_eq]
        exact hcr c hcmem
      have htake : (l.data ++ ('\r' :: '\n' :: (encodeLines ls ++ '\r' :: '\n' :: rest))).takeWhile notCR
          = l.data := by
        rw [takeWhile_append_all _ hall]
        simp [notCR, List.takeWhile_cons]
      have hdrop : (l.data ++ ('\r' :: '\n' :: (encodeLines ls ++ '\r' :: '\n' :: rest))).dropWhile notCR
          = '\r' :: '\n' :: (encodeLines ls ++ '\r' :: '\n' :: rest) := by
        rw [dropWhile_append_all _ hall]
        simp [notCR, List.dropWhile_cons]
      rw [henc]
      simp only [headersLoopF, htake, hdrop, mk_data, List.drop_succ_cons, List.drop_zero]
      rw [if_neg hne]
      have hrec := ih f rest (headersLoopStep r l)
        (fun x hx => hwf x (List.mem_cons_of_mem l hx)) (by simpa using Nat.lt_of_succ_lt_succ hf)
      rw [hrec]
      simp [foldHeaders]

/-- The header loop of on_headers_received on an encoded block of
CR-free non-empty lines terminated by the blank line. -/
theorem headersLoop_encode (lines : List String) (rest : List Char) (r : HTTPResponse)
    (hwf : ∀ l ∈ lines, l ≠ "" ∧ ∀ c ∈ l.data, c ≠ '\r') :
    headersLoop (encodeLines lines ++ '\r' :: '\n' :: rest) r = (foldHeaders r lines, rest) := by
  apply headersLoopF_encode lines _ rest r hwf
  have h := encodeLines_length lines
  simp only [List.length_append, List.length_cons]
  omega


/-- Looking up the inserted key finds the inserted value. -/
theorem mapLookup_mapInsert_self (m : List (String × String)) (k v : String) :
    mapLookup (mapInsert m k v) k = some v := by
  induction m with
  | nil => simp [mapInsert, mapLookup]
  | cons p t ih =>
    by_cases h1 : strLtB k.data p.1.data = true
    · simp [mapInsert, h1, mapLookup]
    · by_cases h2 : k = p.1
      · subst h2
        simp [mapInsert, h1, mapLookup]
      · have h2s : ¬ (p.1 = k) := fun hh => h2 hh.symm
        simp [mapInsert, h1, h2, mapLookup, h2s, ih]

/-- Inserting one key does not change the binding of another. -/
theorem mapLookup_mapInsert_ne (m : List (String × String)) (k v k' : String)
    (h : k' ≠ k) : mapLookup (mapInsert m k v) k' = mapLookup m k' := by
  have hs : ¬ (k = k') := fun hh => h hh.symm
  induction m with
  | nil => simp [mapInsert, mapLookup, hs]
  | cons p t ih =>
    by_cases h1 : strLtB k.data p.1.data = true
    · simp [mapInsert, h1, mapLookup, hs]
    · by_cases h2 : k = p.1
      · subst h2
        simp [mapInsert, h1, mapLookup, hs]
      · simp [mapInsert, h1, h2, mapLookup, ih]

/-- Splitting lastWins at a cons. -/
theorem lastWins_cons (p : String × String) (ps : List (String × String)) (k : String) :
    lastWins (p :: ps) k
      = (lastWins ps k).or (if p.1 = k then some p.2 else none) := by
  unfold lastWins
  rw [List.reverse_cons, List.find?_append]
  cases h : ps.reverse.find? (fun q => q.1 = k) with
  | none => by_cases hp : p.1 = k <;> simp [h, hp]
  | some q => simp [h]

/-- Folding add_header insertions realises the last-write-wins
semantics: the final binding of a key is the value of its last
occurrence, defaulting to its prior binding. -/
theorem foldl_mapInsert_lookup (ps : List (String × String)) :
    ∀ (m : List (String × String)) (k : String),
      mapLookup (ps.foldl (fun acc p => mapInsert acc p.1 p.2) m) k
        = (lastWins ps k).or (mapLookup m k) := by
  induction ps with
  | nil => intro m k; simp [lastWins]
  | cons p ps ih =>
    intro m k
    rw [List.foldl_cons, ih, lastWins_cons]
    by_cases hp : p.1 = k
    · subst hp
      rw [mapLookup_mapInsert_self]
      cases lastWins ps p.1 <;> simp
    · rw [mapLookup_mapInsert_ne m p.1 p.2 k (fun hh => hp hh.symm)]
      cases lastWins ps k <;> simp [hp]

/-- A key occurring among the pairs has a lastWins value. -/
theorem lastWins_isSome_of_mem (ps : List (String × String)) (k : String)
    (h : k ∈ ps.map Prod.fst) : (lastWins ps k).isSome = true := by
  unfold lastWins
  rcases List.mem_map.mp h with ⟨p, hp, hk⟩
  have hsome : (ps.reverse.find? fun q => q.1 = k).isSome := by
    rw [List.find?_isSome]
    exact ⟨p, List.mem_reverse.mpr hp, by simp [hk]⟩
  cases hfind : ps.reverse.find? fun q => q.1 = k with
  | none => rw [hfind] at hsome; simp at hsome
  | some q => simp [hfind]

/-- The header map produced by folding the header lines is the fold of
the split lines over mapInsert. -/
theorem foldHeaders_headers (lines : List String) :
    ∀ r : HTTPResponse,
      (foldHeaders r lines).headers
        = (lines.filterMap splitHeaderLine).foldl
            (fun acc p => mapInsert acc p.1 p.2) r.headers := by
  induction lines with
  | nil => intro r; rfl
  | cons l ls ih =>
    intro r
    have hfold : foldHeaders r (l :: ls) = foldHeaders (headersLoopStep r l) ls := rfl
    rw [hfold, ih]
    cases hs : splitHeaderLine l with
    | none => simp [headersLoopStep, hs, List.filterMap_cons]
    | some nv => simp [headersLoopStep, hs, List.filterMap_cons, add_header]


/-! ### Claim C6 -/

/-- C6: for every block of non-empty, CR-free header lines terminated
by the blank line, the header map the loop builds binds each name to
the value of the last line carrying that name (last-write-wins), and
every line that splits at a colon contributes its name to the map. -/
theorem headers_last_write_wins :
    ∀ (lines : List String),
      (∀ l ∈ lines, l ≠ "" ∧ ∀ c ∈ l.data, c ≠ '\r') →
      ∀ (rest : List Char) (r : HTTPResponse), r.headers = [] →
        ∀ name : String,
          mapLookup (get_headers
              (headersLoop (encodeLines lines ++ '\r' :: '\n' :: rest) r).1) name
            = lastWins (lines.filterMap splitHeaderLine) name
          ∧ (name ∈ (lines.filterMap splitHeaderLine).map Prod.fst →
              (mapLookup (get_headers
                (headersLoop (encodeLines lines ++ '\r' :: '\n' :: rest) r).1) name).isSome
                = true) := by
  intro lines hwf rest r hr name
  rw [headersLoop_encode lines rest r hwf]
  unfold get_headers
  rw [foldHeaders_headers, hr, foldl_mapInsert_lookup]
  constructor
  · simp [mapLookup]
  · intro hmem
    have hsome := lastWins_isSome_of_mem _ name hmem
    cases hl : lastWins (lines.filterMap splitHeaderLine) name with
    | none => rw [hl] at hsome; simp at hsome
    | some q => simp [hl]

/-- C6, witness: two X-Custom lines, the later one wins. -/
theorem headers_last_write_wins_witness :
    mapLookup (get_headers (headersLoop
        (encodeLines ["X-Custom: a", "X-Custom: b"] ++ '\r' :: '\n' :: [])
        HTTPResponse.empty).1) "X-Custom" = some " b" := by
  have h := headers_last_write_wins ["X-Custom: a", "X-Custom: b"]
    (by decide) [] HTTPResponse.empty rfl "X-Custom"
  exact h.1.trans (by decide)


/-! ### Claim C7 -/

/-- Taking the length of the first part of an append returns it. -/
theorem take_append_length (a b : List Char) : (a ++ b).take a.length = a := by
  induction a with
  | nil => rfl
  | cons x xs ih => simp [ih]

/-- Dropping the length of the first part of an append plus k drops k
of the second part. -/
theorem drop_append_plus (a b : List Char) (k : Nat) :
    (a ++ b).drop (a.length + k) = b.drop k := by
  induction a with
  | nil => simp
  | cons x xs ih =>
    have harith : xs.length + 1 + k = (xs.length + k) + 1 := by omega
    simp [List.length_cons, harith, List.drop_succ_cons, ih]

/-- A list containing a colon decomposes at the index of its first
colon, and the prefix before that index is colon-free. -/
theorem first_colon_split (l : List Char) (h : ':' ∈ l) :
    l = l.take (l.findIdx (fun c => c = ':'))
        ++ ':' :: l.drop (l.findIdx (fun c => c = ':') + 1)
    ∧ ':' ∉ l.take (l.findIdx (fun c => c = ':')) := by
  induction l with
  | nil => cases h
  | cons c cs ih =>
    by_cases hc : c = ':'
    · subst hc
      constructor
      · simp [List.findIdx_cons]
      · simp [List.findIdx_cons]
    · have hmem : ':' ∈ cs := by
        rcases List.mem_cons.mp h with h1 | h1
        · exact absurd h1.symm hc
        · exact h1
      obtain ⟨ih1, ih2⟩ := ih hmem
      have hfind : (c :: cs).findIdx (fun x => x = ':') = cs.findIdx (fun x => x = ':') + 1 := by
        simp [List.findIdx_cons, hc]
      constructor
      · rw [hfind]
        simp only [List.take_succ_cons, List.drop_succ_cons, List.cons_append]
        exact congrArg (List.cons c) ih1
      · rw [hfind]
        simp only [List.take_succ_cons]
        intro hmem2
        rcases List.mem_cons.mp hmem2 with h1 | h1
        · exact hc h1.symm
        · exact ih2 h1

/-- The first colon of n ++ colon ++ t sits at index n.length when n is
colon-free. -/
theorem findIdx_append_colon (n t : List Char) (hn : ':' ∉ n) :
    (n ++ ':' :: t).findIdx (fun c => c = ':') = n.length := by
  induction n with
  | nil => simp [List.findIdx_cons]
  | cons c cs ih =>
    have hc : ¬ (c = ':') := fun hh => hn (hh ▸ List.mem_cons_self c cs)
    simp [List.findIdx_cons, hc, ih (fun hm => hn (List.mem_cons_of_mem c hm))]

/-- Splitting a header line returns name and value exactly when the
line is the name, a colon, and the value, with the name colon-free (so
the split happens at the first colon, and the value is empty exactly
when the colon is the last character). -/
theorem splitHeaderLine_eq_some_iff (line n v : String) :
    splitHeaderLine line = some (n, v) ↔
      (line.data = n.data ++ ':' :: v.data ∧ ':' ∉ n.data) := by
  constructor
  · intro h
    unfold splitHeaderLine at h
    by_cases hmem : ':' ∈ line.data
    · rw [if_pos hmem] at h
      have h2 := Option.some.inj h
      have hn := congrArg Prod.fst h2
      have hv := congrArg Prod.snd h2
      simp only at hn hv
      obtain ⟨split1, split2⟩ := first_colon_split line.data hmem
      have hilt : line.data.findIdx (fun c => c = ':') < line.data.length :=
        List.findIdx_lt_length_of_exists ⟨':', hmem, by simp⟩
      have hndata : n.data = line.data.take (line.data.findIdx (fun c => c = ':')) := by
        rw [← hn]
      have hvdata : v.data
          = line.data.drop (line.data.findIdx (fun c => c = ':') + 1) := by
        by_cases hlen : line.data.findIdx (fun c => c = ':') < line.data.length - 1
        · rw [if_pos hlen] at hv
          rw [← hv]
        · rw [if_neg hlen] at hv
          have hdropnil : line.data.drop (line.data.findIdx (fun c => c = ':') + 1) = [] :=
            List.drop_eq_nil_of_le (by omega)
          rw [← hv, hdropnil]
      constructor
      · rw [hndata, hvdata]
        exact split1
      · rw [hndata]
        exact split2
    · rw [if_neg hmem] at h
      exact absurd h (by simp)
  · rintro ⟨hdec, hnotin⟩
    have hmem : ':' ∈ line.data := by
      rw [hdec]
      exact List.mem_append_right _ (List.mem_cons_self _ _)
    have hidx : line.data.findIdx (fun c => c = ':') = n.data.length := by
      rw [hdec]
      exact findIdx_append_colon n.data v.data hnotin
    have htake : line.data.take n.data.length = n.data := by
      rw [hdec]
      exact take_append_length n.data (':' :: v.data)
    have hdrop : line.data.drop (n.data.length + 1) = v.data := by
      rw [hdec]
      simpa using drop_append_plus n.data (':' :: v.data) 1
    have hline : line.data.length = n.data.length + (v.data.length + 1) := by
      rw [hdec]
      simp [List.length_append]
    unfold splitHeaderLine
    rw [if_pos hmem]
    simp only [hidx]
    rw [htake, mk_data]
    by_cases hlen : n.data.length < line.data.length - 1
    · rw [if_pos hlen, hdrop, mk_data]
    · rw [if_neg hlen]
      have hvlen : v.data.length = 0 := by omega
      have hv : v = "" := str_ext (List.length_eq_zero.mp hvlen)
      rw [hv]

/-- A header line fails to split exactly when it has no colon. -/
theorem splitHeaderLine_eq_none_iff (line : String) :
    splitHeaderLine line = none ↔ ':' ∉ line.data := by
  unfold splitHeaderLine
  by_cases hmem : ':' ∈ line.data
  · rw [if_pos hmem]
    simp [hmem]
  · rw [if_neg hmem]
    simp [hmem]

/-- The header loop stops at the first empty line, folding exactly the
lines before it and leaving everything after its CRLF unread. -/
theorem headersLoop_stops_at_empty (ls1 ls2 : List String) (rest : List Char)
    (r : HTTPResponse) (hwf : ∀ l ∈ ls1, l ≠ "" ∧ ∀ c ∈ l.data, c ≠ '\r') :
    headersLoop (encodeLines (ls1 ++ "" :: ls2) ++ rest) r
      = (foldHeaders r ls1, encodeLines ls2 ++ rest) := by
  have henc : encodeLines (ls1 ++ "" :: ls2) ++ rest
      = encodeLines ls1 ++ '\r' :: '\n' :: (encodeLines ls2 ++ rest) := by
    simp [encodeLines, List.map_append, List.flatten_append, List.flatten_cons,
      List.append_assoc, show ("" : String).data = [] from rfl]
  rw [henc]
  exact headersLoop_encode ls1 (encodeLines ls2 ++ rest) r hwf

/-- C7: header-block parsing splits each line at its first colon,
stores the part before as the name and the part after as the value —
the empty string exactly when the colon ends the line — silently skips
lines without a colon (they leave the response untouched and raise no
error), and stops at the first empty line, leaving later bytes
unconsumed. -/
theorem header_line_parsing :
    (∀ line n v : String,
      splitHeaderLine line = some (n, v) ↔
        (line.data = n.data ++ ':' :: v.data ∧ ':' ∉ n.data))
    ∧ (∀ line : String, splitHeaderLine line = none ↔ ':' ∉ line.data)
    ∧ (∀ (r : HTTPResponse) (line : String), ':' ∉ line.data → headersLoopStep r line = r)
    ∧ (∀ (ls1 ls2 : List String) (rest : List Char) (r : HTTPResponse),
        (∀ l ∈ ls1, l ≠ "" ∧ ∀ c ∈ l.data, c ≠ '\r') →
        headersLoop (encodeLines (ls1 ++ "" :: ls2) ++ rest) r
          = (foldHeaders r ls1, encodeLines ls2 ++ rest)) := by
  refine ⟨splitHeaderLine_eq_some_iff, splitHeaderLine_eq_none_iff, ?_,
    headersLoop_stops_at_empty⟩
  intro r line hline
  unfold headersLoopStep
  rw [(splitHeaderLine_eq_none_iff line).mpr hline]

/-- C7, witness: a colon-terminated line yields an empty value, a
colon-free line is skipped, and a block stops at its empty line. -/
theorem header_line_parsing_witness :
    splitHeaderLine "A:" = some ("A", "")
    ∧ splitHeaderLine "NoColon" = none
    ∧ headersLoopStep HTTPResponse.empty "NoColon" = HTTPResponse.empty
    ∧ headersLoop (encodeLines (["A: 1"] ++ "" :: ["B: 2"]) ++ []) HTTPResponse.empty
        = (foldHeaders HTTPResponse.empty ["A: 1"], encodeLines ["B: 2"] ++ []) := by
  refine ⟨(header_line_parsing.1 "A:" "A" "").mpr (by decide),
    (header_line_parsing.2.1 "NoColon").mpr (by decide),
    header_line_parsing.2.2.1 HTTPResponse.empty "NoColon" (by decide),
    header_line_parsing.2.2.2 ["A: 1"] ["B: 2"] [] HTTPResponse.empty (by decide)⟩


/-! ### Claim C10 -/

/-- Key order of the header map: strict lexicographic comparison of the
key strings by the boolean comparator. -/
@[reducible] def keyLt (a b : String × String) : Prop := strLtB a.1.data b.1.data = true

/-- The lexicographic comparator is irreflexive. -/
theorem strLtB_irrefl : ∀ l : List Char, strLtB l l = false := by
  intro l
  induction l with
  | nil => rfl
  | cons c cs ih => simp [strLtB, lt_irrefl, ih]

/-- The lexicographic comparator is transitive. -/
theorem strLtB_trans :
    ∀ (a b c : List Char), strLtB a b = true → strLtB b c = true → strLtB a c = true := by
  intro a
  induction a with
  | nil =>
    intro b c hab hbc
    cases b with
    | nil => simp [strLtB] at hab
    | cons y ys =>
      cases c with
      | nil => simp [strLtB] at hbc
      | cons z zs => rfl
  | cons x xs ih =>
    intro b c hab hbc
    cases b with
    | nil => simp [strLtB] at hab
    | cons y ys =>
      cases c with
      | nil => simp [strLtB] at hbc
      | cons z zs =>
        by_cases h1 : x < y
        · by_cases h2 : y < z
          · simp [strLtB, lt_trans h1 h2]
          · by_cases h3 : z < y
            · simp [strLtB, h2, h3] at hbc
            · have hyz : y = z := by
                rcases lt_trichotomy y z with h | h | h
                · exact absurd h h2
                · exact h
                · exact absurd h h3
              subst hyz
              simp [strLtB, h1]
        · by_cases h1b : y < x
          · simp [strLtB, h1, h1b] at hab
          · have hxy : x = y := by
              rcases lt_trichotomy x y with h | h | h
              · exact absurd h h1
              · exact h
              · exact absurd h h1b
            subst hxy
            simp only [strLtB, lt_irrefl, if_false] at hab
            by_cases h2 : x < z
            · simp [strLtB, h2]
            · by_cases h3 : z < x
              · simp [strLtB, h2, h3] at hbc
              · have hxz : x = z := by
                  rcases lt_trichotomy x z with h | h | h
                  · exact absurd h h2
                  · exact h
                  · exact absurd h h3
                subst hxz
                simp only [strLtB, lt_irrefl, if_false] at hbc ⊢
                exact ih ys zs hab hbc

/-- Two lists neither of which lexicographically precedes the other are
equal. -/
theorem strLtB_eq_of_not :
    ∀ (a b : List Char), strLtB a b = false → strLtB b a = false → a = b := by
  intro a
  induction a with
  | nil =>
    intro b h1 h2
    cases b with
    | nil => rfl
    | cons y ys => simp [strLtB] at h1
  | cons x xs ih =>
    intro b h1 h2
    cases b with
    | nil => simp [strLtB] at h2
    | cons y ys =>
      by_cases hxy : x < y
      · simp [strLtB, hxy] at h1
      · by_cases hyx : y < x
        · simp [strLtB, hyx] at h2
        · have hx : x = y := by
            rcases lt_trichotomy x y with h | h | h
            · exact absurd h hxy
            · exact h
            · exact absurd h hyx
          subst hx
          simp only [strLtB, lt_irrefl, if_false] at h1 h2
          rw [ih ys h1 h2]

/-- The boolean comparator agrees with the lexicographic order on
character lists. -/
theorem strLtB_iff_list : ∀ (a b : List Char), strLtB a b = true ↔ a < b := by
  intro a
  induction a with
  | nil =>
    intro b
    cases b with
    | nil =>
      simp only [strLtB, Bool.false_eq_true, false_iff]
      intro h
      cases h
    | cons y ys =>
      simp only [strLtB, true_iff]
      exact List.Lex.nil
  | cons x xs ih =>
    intro b
    cases b with
    | nil =>
      simp only [strLtB, Bool.false_eq_true, false_iff]
      intro h
      cases h
    | cons y ys =>
      by_cases h1 : x < y
      · simp only [strLtB, h1, if_true, true_iff]
        exact List.Lex.rel h1
      · by_cases h2 : y < x
        · simp only [strLtB, h1, if_false, h2, if_true, Bool.false_eq_true, false_iff]
          intro h
          cases h with
          | cons h3 => exact absurd h2 (lt_irrefl x)
          | rel h3 => exact absurd h3 h1
        · have hx : x = y := by
            rcases lt_trichotomy x y with h | h | h
            · exact absurd h h1
            · exact h
            · exact absurd h h2
          subst hx
          simp only [strLtB, lt_irrefl, if_false]
          constructor
          · intro h
            exact List.Lex.cons ((ih ys).mp h)
          · intro h
            cases h with
            | cons h3 => exact (ih ys).mpr h3
            | rel h3 => exact absurd h3 (lt_irrefl x)

/-- The boolean comparator on the data of two strings agrees with the
standard lexicographic order on String. -/
theorem strLtB_iff_str (a b : String) : strLtB a.data b.data = true ↔ a < b := by
  rw [String.lt_iff_toList_lt]
  exact strLtB_iff_list a.data b.data

/-- Pairwise key order transfers between the boolean comparator and
the standard order. -/
theorem pairwise_keyLt_iff (m : List (String × String)) :
    List.Pairwise keyLt m ↔ List.Pairwise (fun a b : String × String => a.1 < b.1) m :=
  ⟨fun h => h.imp (fun hab => (strLtB_iff_str _ _).mp hab),
   fun h => h.imp (fun hab => (strLtB_iff_str _ _).mpr hab)⟩

/-- Members of an insertion are the inserted pair or old members. -/
theorem mem_mapInsert (m : List (String × String)) (k v : String) (q : String × String) :
    q ∈ mapInsert m k v → q = (k, v) ∨ q ∈ m := by
  induction m with
  | nil =>
    intro h
    simp only [mapInsert] at h
    exact Or.inl (List.mem_singleton.mp h)
  | cons p t ih =>
    intro h
    by_cases h1 : strLtB k.data p.1.data = true
    · simp only [mapInsert, h1, if_true] at h
      rcases List.mem_cons.mp h with h2 | h2
      · exact Or.inl h2
      · exact Or.inr h2
    · by_cases h2 : k = p.1
      · have hred : mapInsert (p :: t) k v = (k, v) :: t := by
          rw [h2] at h1
          simp [mapInsert, h1, h2]
        rw [hred] at h
        rcases List.mem_cons.mp h with h3 | h3
        · exact Or.inl h3
        · exact Or.inr (List.mem_cons_of_mem p h3)
      · simp only [mapInsert, h1, if_false, h2, if_true] at h
        rcases List.mem_cons.mp h with h3 | h3
        · exact Or.inr (List.mem_cons.mpr (Or.inl h3))
        · rcases ih h3 with h4 | h4
          · exact Or.inl h4
          · exact Or.inr (List.mem_cons_of_mem p h4)

/-- Insertion preserves the sortedness of the map. -/
theorem mapInsert_sorted (k v : String) :
    ∀ m : List (String × String), List.Pairwise keyLt m →
      List.Pairwise keyLt (mapInsert m k v) := by
  intro m
  induction m with
  | nil =>
    intro _
    simp [mapInsert]
  | cons p t ih =>
    intro h
    rcases List.pairwise_cons.mp h with ⟨hp, ht⟩
    by_cases h1 : strLtB k.data p.1.data = true
    · simp only [mapInsert, h1, if_true]
      refine List.pairwise_cons.mpr ⟨?_, h⟩
      intro q hq
      rcases List.mem_cons.mp hq with h2 | h2
      · subst h2
        exact h1
      · exact strLtB_trans _ _ _ h1 (hp q h2)
    · by_cases h2 : k = p.1
      · have hred : mapInsert (p :: t) k v = (k, v) :: t := by
          rw [h2] at h1
          simp [mapInsert, h1, h2]
        rw [hred]
        refine List.pairwise_cons.mpr ⟨?_, ht⟩
        intro q hq
        show strLtB k.data q.1.data = true
        rw [h2]
        exact hp q hq
      · simp only [mapInsert, h1, if_false, h2, if_true]
        refine List.pairwise_cons.mpr ⟨?_, ih ht⟩
        intro q hq
        rcases mem_mapInsert t k v q hq with h3 | h3
        · subst h3
          show strLtB p.1.data k.data = true
          cases hb : strLtB p.1.data k.data with
          | false =>
            have hdata := strLtB_eq_of_not k.data p.1.data
              (Bool.eq_false_iff.mpr (fun hh => h1 hh)) hb
            exact absurd (str_ext hdata) h2
          | true => rfl
        · exact hp q h3

/-- A successful lookup means the key occurs in the map. -/
theorem mapLookup_some_mem (m : List (String × String)) (k v : String) :
    mapLookup m k = some v → ∃ q ∈ m, q.1 = k := by
  induction m with
  | nil =>
    intro h
    simp [mapLookup] at h
  | cons p t ih =>
    intro h
    by_cases hp : p.1 = k
    · exact ⟨p, List.mem_cons_self p t, hp⟩
    · simp only [mapLookup, hp, if_false] at h
      rcases ih h with ⟨q, hq, hqk⟩
      exact ⟨q, List.mem_cons_of_mem p hq, hqk⟩

/-- Lookup fails when no key matches. -/
theorem mapLookup_none_of_keys (m : List (String × String)) (k : String)
    (h : ∀ q ∈ m, q.1 ≠ k) : mapLookup m k = none := by
  induction m with
  | nil => rfl
  | cons p t ih =>
    simp only [mapLookup]
    rw [if_neg (h p (List.mem_cons_self p t))]
    exact ih (fun q hq => h q (List.mem_cons_of_mem p hq))

/-- Two sorted maps with the same bindings are identical: the insertion
history is not observable. -/
theorem sorted_map_ext :
    ∀ (m1 m2 : List (String × String)), List.Pairwise keyLt m1 → List.Pairwise keyLt m2 →
      (∀ k, mapLookup m1 k = mapLookup m2 k) → m1 = m2 := by
  intro m1
  induction m1 with
  | nil =>
    intro m2 _ _ hl
    cases m2 with
    | nil => rfl
    | cons q u =>
      have hq := hl q.1
      simp [mapLookup] at hq
  | cons p t ih =>
    intro m2 h1 h2 hl
    cases m2 with
    | nil =>
      have hp := hl p.1
      simp [mapLookup] at hp
    | cons q u =>
      rcases List.pairwise_cons.mp h1 with ⟨hp1, ht1⟩
      rcases List.pairwise_cons.mp h2 with ⟨hq2, hu2⟩
      have hkey : p.1 = q.1 := by
        by_contra hne
        have hqp : ¬ (q.1 = p.1) := fun hh => hne hh.symm
        have e1 := hl p.1
        rw [show mapLookup (p :: t) p.1 = some p.2 from by simp [mapLookup],
          show mapLookup (q :: u) p.1 = mapLookup u p.1 from by simp [mapLookup, hqp]] at e1
        rcases mapLookup_some_mem u p.1 p.2 e1.symm with ⟨x, hxu, hxk⟩
        have hql : strLtB q.1.data p.1.data = true := by
          have hx : strLtB q.1.data x.1.data = true := hq2 x hxu
          rw [hxk] at hx
          exact hx
        have e2 := hl q.1
        rw [show mapLookup (p :: t) q.1 = mapLookup t q.1 from by simp [mapLookup, hne],
          show mapLookup (q :: u) q.1 = some q.2 from by simp [mapLookup]] at e2
        rcases mapLookup_some_mem t q.1 q.2 e2 with ⟨y, hyt, hyk⟩
        have hpl : strLtB p.1.data q.1.data = true := by
          have hy : strLtB p.1.data y.1.data = true := hp1 y hyt
          rw [hyk] at hy
          exact hy
        have hpp := strLtB_trans _ _ _ hpl hql
        rw [strLtB_irrefl] at hpp
        exact absurd hpp (by simp)
      have hval : p.2 = q.2 := by
        have e := hl p.1
        rw [show mapLookup (p :: t) p.1 = some p.2 from by simp [mapLookup],
          show mapLookup (q :: u) p.1 = some q.2 from by simp [mapLookup, hkey.symm]] at e
        exact Option.some.inj e
      have hpq : p = q := Prod.ext hkey hval
      subst hpq
      have htl : ∀ k, mapLookup t k = mapLookup u k := by
        intro k
        by_cases hk : k = p.1
        · subst hk
          rw [mapLookup_none_of_keys t p.1 ?_, mapLookup_none_of_keys u p.1 ?_]
          · intro x hx hx1
            have hlt : strLtB p.1.data x.1.data = true := hq2 x hx
            rw [hx1] at hlt
            rw [strLtB_irrefl] at hlt
            exact absurd hlt (by simp)
          · intro x hx hx1
            have hlt : strLtB p.1.data x.1.data = true := hp1 x hx
            rw [hx1] at hlt
            rw [strLtB_irrefl] at hlt
            exact absurd hlt (by simp)
        · have e := hl k
          have hpk : ¬ (p.1 = k) := fun hh => hk hh.symm
          simp only [mapLookup, hpk, if_false] at e
          exact e
      rw [ih u ht1 hu2 htl]

/-- The fuelled header loop preserves sortedness of the header map. -/
theorem headersLoopF_sorted :
    ∀ (fuel : Nat) (s : List Char) (r : HTTPResponse),
      List.Pairwise keyLt r.headers →
      List.Pairwise keyLt (headersLoopF fuel s r).1.headers := by
  intro fuel
  induction fuel with
  | zero =>
    intro s r h
    exact h
  | succ f ih =>
    intro s r h
    simp only [headersLoopF]
    by_cases hh : String.mk (s.takeWhile notCR) = ""
    · rw [if_pos hh]
      exact h
    · rw [if_neg hh]
      apply ih
      unfold headersLoopStep
      cases hs : splitHeaderLine (String.mk (s.takeWhile notCR)) with
      | none => exact h
      | some nv => exact mapInsert_sorted nv.1 nv.2 r.headers h

/-- The header loop preserves sortedness of the header map. -/
theorem headersLoop_sorted (s : List Char) (r : HTTPResponse)
    (h : List.Pairwise keyLt r.headers) :
    List.Pairwise keyLt (headersLoop s r).1.headers :=
  headersLoopF_sorted _ s r h

/-- C10: the header mapping exposed by get_headers is an ordered map:
starting from a sorted (in particular empty) map, the map left by
on_headers_received is strictly sorted lexicographically by header
name, and any two sorted maps with the same bindings are identical —
so the order in which header lines were received is not represented
and cannot be observed through the accessor. -/
theorem get_headers_sorted :
    (∀ st : HTTPRequest,
      List.Pairwise (fun a b : String × String => a.1 < b.1) st.response.headers →
      List.Pairwise (fun a b : String × String => a.1 < b.1)
        (get_headers (on_headers_received st noError).1.response))
    ∧ (∀ m1 m2 : List (String × String),
        List.Pairwise (fun a b : String × String => a.1 < b.1) m1 →
        List.Pairwise (fun a b : String × String => a.1 < b.1) m2 →
        (∀ k, mapLookup m1 k = mapLookup m2 k) → m1 = m2) := by
  constructor
  · intro st h
    rw [← pairwise_keyLt_iff] at h ⊢
    have hmain : (get_headers (on_headers_received st noError).1.response)
        = (headersLoop st.response.responseBuf st.response).1.headers := by
      by_cases hc : st.wasCancelled <;>
        simp [on_headers_received, get_headers, noError_val, hc, on_finish]
    rw [hmain]
    exact headersLoop_sorted _ _ h
  · intro m1 m2 h1 h2 hl
    exact sorted_map_ext m1 m2 ((pairwise_keyLt_iff m1).mpr h1)
      ((pairwise_keyLt_iff m2).mpr h2) hl

/-- C10, witness: headers received out of order come back sorted, and
the two insertion orders of the same two headers produce identical
maps. -/
theorem get_headers_sorted_witness :
    List.Pairwise (fun a b : String × String => a.1 < b.1)
      (get_headers (on_headers_received reqTwoHeaders noError).1.response)
    ∧ mapInsert (mapInsert [] "B" "2") "A" "1" = mapInsert (mapInsert [] "A" "1") "B" "2" := by
  constructor
  · exact get_headers_sorted.1 reqTwoHeaders List.Pairwise.nil
  · exact get_headers_sorted.2 (mapInsert (mapInsert [] "B" "2") "A" "1")
      (mapInsert (mapInsert [] "A" "1") "B" "2")
      ((pairwise_keyLt_iff _).mp (by decide))
      ((pairwise_keyLt_iff _).mp (by decide))
      (fun k => rfl)

end HttpClient
